import Mathlib

/-!
Verification of the graph-ingestion, layout and interactive-scene engine of
the Mr.Hedgehog repository (frontend/src/graphview.cpp, graphview.h).

The definitions below are a shallow embedding of the C++ source:

* `GraphView.findNodeMatch` / `GraphView.findEdgeMatch` embed the two
  `QRegularExpression` patterns of `parseDotFile`
  (`"([^"]+)"\s*\[label="([^"]+)"\]` and `"([^"]+)"\s*->\s*"([^"]+)"`)
  together with PCRE's leftmost-match search over the line.  Both patterns
  are deterministic: every `[^"]+` group is a maximal run of non-quote
  characters forced by the following literal `"`, and `\s*` is a maximal
  run of whitespace forced by the following non-whitespace literal, so no
  backtracking can produce a different capture.
* `GraphView.createNode` embeds `GraphView::createNode` restricted to the
  node map `m_nodes` (a `QMap<QString, ...>`): a duplicate identifier
  returns early and changes nothing, otherwise the entry is inserted.
  The list records insertion (first-seen) order together with the label
  that was stored.
* `GraphView.parseLines` embeds the line loop of `GraphView::parseDotFile`
  plus the subsequent `createEdge` pass: node lines are consumed first
  (`continue`), edge lines are collected, and edges are materialized
  afterwards only when both endpoints are present in the final node map.
* `GraphView.layoutGraph` embeds `GraphView::layoutGraph`: it walks the
  node map in `QMap` iteration order, which is ascending key order, and
  assigns grid positions with 5 columns, 200 horizontal and 80 vertical
  spacing.
* `GraphView.displayLabel` embeds the label truncation of
  `GraphView::createNode` (`QString::right(20)` prefixed with `"..."`).
* `GraphView.zoomIn` / `GraphView.zoomOut` embed `GraphView::wheelEvent`
  with `qreal` modelled exactly as `ℚ`.
* `GraphView.GVState` with `GraphView.clearScene`,
  `GraphView.showPlaceholder`, `GraphView.parseDotFile` and
  `GraphView.loadDotFile` embed the scene-state mutations of the
  corresponding member functions; the `Bool` component records whether the
  fit-to-content branch (`fitInView` plus the 0.9 post-scale) executed.
-/

namespace GraphView

/-- Whitespace characters matched by PCRE `\s` (the default for
`QRegularExpression`). -/
def isWS (c : Char) : Bool :=
  c = ' ' || c = '\t' || c = '\n' || c = '\r' || c = '\x0b' || c = '\x0c'

/-- Match `"([^"]+)"` at the head of the character list: an opening quote, a
nonempty maximal run of non-quote characters (the capture), and the closing
quote.  Returns the capture and the remaining characters. -/
def matchQuoted : List Char → Option (List Char × List Char)
  | [] => none
  | c :: rest =>
    if c = '"' then
      let body := rest.takeWhile (fun x => x ≠ '"')
      match rest.dropWhile (fun x => x ≠ '"') with
      | _ :: rest2 => if body.isEmpty then none else some (body, rest2)
      | [] => none
    else none

/-- Match a literal character sequence at the head of the list. -/
def matchLit : List Char → List Char → Option (List Char)
  | [], s => some s
  | _ :: _, [] => none
  | p :: ps, c :: cs => if c = p then matchLit ps cs else none

/-- Match the node pattern `"([^"]+)"\s*\[label="([^"]+)"\]` anchored at the
head of the list; captures (identifier, label). -/
def matchNodeAt (s : List Char) : Option (String × String) :=
  match matchQuoted s with
  | none => none
  | some (id, r1) =>
    match matchLit ['[', 'l', 'a', 'b', 'e', 'l', '=', '"'] (r1.dropWhile isWS) with
    | none => none
    | some r2 =>
      let lab := r2.takeWhile (fun x => x ≠ '"')
      match r2.dropWhile (fun x => x ≠ '"') with
      | _ :: r3 =>
        if lab.isEmpty then none
        else
          match r3 with
          | ']' :: _ => some (String.mk id, String.mk lab)
          | _ => none
      | [] => none

/-- Match the edge pattern `"([^"]+)"\s*->\s*"([^"]+)"` anchored at the head
of the list; captures (from, to). -/
def matchEdgeAt (s : List Char) : Option (String × String) :=
  match matchQuoted s with
  | none => none
  | some (f, r1) =>
    match matchLit ['-', '>'] (r1.dropWhile isWS) with
    | none => none
    | some r2 =>
      match matchQuoted (r2.dropWhile isWS) with
      | none => none
      | some (t, _) => some (String.mk f, String.mk t)

/-- PCRE leftmost match of the node pattern inside a line:
try each start position from the left. -/
def findNodeMatch : List Char → Option (String × String)
  | [] => none
  | c :: cs =>
    match matchNodeAt (c :: cs) with
    | some r => some r
    | none => findNodeMatch cs

/-- PCRE leftmost match of the edge pattern inside a line. -/
def findEdgeMatch : List Char → Option (String × String)
  | [] => none
  | c :: cs =>
    match matchEdgeAt (c :: cs) with
    | some r => some r
    | none => findEdgeMatch cs

/-- Embeds `m_nodes.contains(id)`. -/
def containsId (ns : List (String × String)) (id : String) : Bool :=
  ns.any (fun e => e.1 = id)

/-- Embeds `GraphView::createNode` restricted to its effect on `m_nodes`: a
duplicate identifier returns early (no label change, no reordering),
otherwise the (id, label) entry is inserted. -/
def createNode (ns : List (String × String)) (id lab : String) :
    List (String × String) :=
  if containsId ns id then ns else ns ++ [(id, lab)]

/-- The node map produced by running `createNode` over a list of node
declarations, starting from map `ns`. -/
def buildNodesAux (ns : List (String × String)) :
    List (String × String) → List (String × String)
  | [] => ns
  | d :: ds => buildNodesAux (createNode ns d.1 d.2) ds

/-- The node map produced from a list of node declarations. -/
def buildNodes (ds : List (String × String)) : List (String × String) :=
  buildNodesAux [] ds

/-- One iteration of the line loop of `GraphView::parseDotFile`: the node
pattern is tried first (`continue` on success), then the edge pattern; a
line matching neither is ignored. -/
def lineStep (acc : List (String × String) × List (String × String))
    (line : String) : List (String × String) × List (String × String) :=
  match findNodeMatch line.toList with
  | some (id, lab) => (createNode acc.1 id lab, acc.2)
  | none =>
    match findEdgeMatch line.toList with
    | some e => (acc.1, acc.2 ++ [e])
    | none => acc

/-- Embeds `GraphView::parseDotFile` restricted to the parsed data: the line loop
followed by the `createEdge` pass, which materializes an edge only when
both endpoints are in the final node map. -/
def parseLines (lines : List String) :
    List (String × String) × List (String × String) :=
  let p := lines.foldl lineStep ([], [])
  (p.1, p.2.filter (fun e => containsId p.1 e.1 && containsId p.1 e.2))

/-- Split a character list at newline characters, keeping empty parts;
`cur` accumulates the current line in reverse. -/
def splitLinesAux : List Char → List Char → List String
  | [], cur => [String.mk cur.reverse]
  | c :: cs, cur =>
    if c = '\n' then String.mk cur.reverse :: splitLinesAux cs []
    else splitLinesAux cs (c :: cur)

/-- Embeds `content.split('\n')` with `Qt::KeepEmptyParts` (the default). -/
def splitLines (content : String) : List String :=
  splitLinesAux content.toList []

/-- Parse a whole input text: `content.split('\n')` then the line loop. -/
def parseDot (content : String) :
    List (String × String) × List (String × String) :=
  parseLines (splitLines content)

/-- The node declarations of the input, as the code classifies lines:
a line is a node declaration iff the node pattern matches somewhere in it. -/
def nodeDecls (lines : List String) : List (String × String) :=
  lines.filterMap (fun line => findNodeMatch line.toList)

/-- The edge declarations of the input, as the code classifies lines: a line
is an edge declaration iff the node pattern does not match and the edge
pattern does. -/
def edgeDecls (lines : List String) : List (String × String) :=
  lines.filterMap (fun line =>
    match findNodeMatch line.toList with
    | some _ => none
    | none => findEdgeMatch line.toList)

/-- Embeds `QString::operator<`: lexicographic comparison of the character
sequences (code-unit order, which on these code points is code-point
order). -/
def keyLt : List Char → List Char → Bool
  | _, [] => false
  | [], _ :: _ => true
  | c :: cs, d :: ds =>
    if c.toNat < d.toNat then true
    else if d.toNat < c.toNat then false
    else keyLt cs ds

/-- Insert a key into a sorted key list, ordered by `QString::operator<`. -/
def insertSorted (x : String) : List String → List String
  | [] => [x]
  | y :: ys => if keyLt x.toList y.toList then x :: y :: ys else y :: insertSorted x ys

/-- The `QMap` iteration order of the node map: ascending key order. -/
def sortIds : List String → List String
  | [] => []
  | x :: xs => insertSorted x (sortIds xs)

/-- The node-placement loop of `GraphView::layoutGraph`: walk the keys in
map order carrying `col` and `row`, place each node at
`(col * NODE_SPACING_X, row * NODE_SPACING_Y)` = `(col * 200, row * 80)`,
and wrap to a new row after `maxCols = 5` columns. -/
def layoutLoop : List String → Nat → Nat → List (String × Nat × Nat)
  | [], _, _ => []
  | id :: rest, col, row =>
    (id, 200 * col, 80 * row) ::
      (if col + 1 ≥ 5 then layoutLoop rest 0 (row + 1)
       else layoutLoop rest (col + 1) row)

/-- Embeds `GraphView::layoutGraph`: iterate `m_nodes` (a `QMap`, hence ascending
key order) and assign grid positions. -/
def layoutGraph (nodes : List (String × String)) : List (String × Nat × Nat) :=
  layoutLoop (sortIds (nodes.map Prod.fst)) 0 0

/-- Position assigned to a given identifier by the layout. -/
def posOf (ps : List (String × Nat × Nat)) (id : String) : Option (Nat × Nat) :=
  (ps.find? (fun e => e.1 = id)).map (fun e => e.2)

/-- Embeds `QString::right(n)`: the `n` rightmost characters (the whole string when
`n ≥ size`). -/
def rightQ (s : String) (n : Nat) : String :=
  if n ≥ s.length then s else String.mk (s.toList.drop (s.length - n))

/-- The label truncation of `GraphView::createNode`: labels longer than 20
characters are replaced by `"..."` followed by their last 20 characters. -/
def displayLabel (label : String) : String :=
  if label.length > 20 then ("..." ++ rightQ label 20) else label

/-- One zoom-in wheel step of `GraphView::wheelEvent`: multiply the scale by
`scaleFactor = 1.1`, with `qreal` modelled exactly as `ℚ`. -/
def zoomIn (s : ℚ) : ℚ := s * (11 / 10)

/-- One zoom-out wheel step of `GraphView::wheelEvent`: multiply the scale
by `1 / scaleFactor`. -/
def zoomOut (s : ℚ) : ℚ := s * (1 / (11 / 10))

/-- The scene-state of a `GraphView`: the node map `m_nodes` (insertion
order with labels), the materialized edges, and `m_placeholderText`
(`none` = `nullptr`). -/
structure GVState where
  nodes : List (String × String)
  edges : List (String × String)
  placeholderText : Option String
deriving DecidableEq, Repr

/-- Embeds `GraphView::clear`: empty the scene, the node map, and the placeholder
pointer. -/
def clearScene (_ : GVState) : GVState := ⟨[], [], none⟩

/-- Embeds `GraphView::showPlaceholder`: `clear()` then add the message text. -/
def showPlaceholder (msg : String) (s : GVState) : GVState :=
  { clearScene s with placeholderText := some msg }

/-- Embeds `GraphView::parseDotFile` as a state transition: `clear()`, the line
loop, layout, the `createEdge` pass, then either the fit-to-content branch
(recorded in the `Bool`) or `showPlaceholder("No nodes found in the call
graph")` when the node map is empty. -/
def parseDotFile (content : String) (s : GVState) : GVState × Bool :=
  let s1 := clearScene s
  let p := parseLines (splitLines content)
  if p.1.isEmpty then
    (showPlaceholder ("No nodes found in the call graph") s1, false)
  else
    ({ s1 with nodes := p.1, edges := p.2 }, true)

/-- Embeds `GraphView::loadDotFile`: the file system is abstracted as a partial map
from paths to contents; an unopenable path shows the placeholder
`"Failed to open output file:\n" + filePath` and returns. -/
def loadDotFile (fs : String → Option String) (filePath : String)
    (s : GVState) : GVState × Bool :=
  match fs filePath with
  | none => (showPlaceholder ("Failed to open output file:\n" ++ filePath) s, false)
  | some content => parseDotFile content s

/-- Placeholder state per the spec: no nodes, no edges, a message. -/
def isPlaceholderState (s : GVState) : Prop :=
  s.nodes = [] ∧ s.edges = [] ∧ ∃ m, s.placeholderText = some m

/-- Graph state per the spec: at least one node, no placeholder message. -/
def isGraphState (s : GVState) : Prop :=
  s.nodes ≠ [] ∧ s.placeholderText = none

/-- Keep the first occurrence of every key, given the keys already `seen`.
Used to state which identifier order `createNode` produces. -/
def firstDedupAux (seen : List String) : List String → List String
  | [] => []
  | x :: xs =>
    if x ∈ seen then firstDedupAux seen xs
    else x :: firstDedupAux (seen ++ [x]) xs

end GraphView

namespace Hedgehog

/-- Modelled from the spec: the repository's `Hedgehog` animation methods
(`randomWalk`, `pickNewTarget`, `setSceneBounds`) are only declared in the
header under `src/`; their definitions are not present.  A canvas bound is
an axis-aligned rectangle, modelled with exact `ℚ` coordinates. -/
structure Bounds where
  xlo : ℚ
  ylo : ℚ
  xhi : ℚ
  yhi : ℚ
deriving DecidableEq

/-- A non-degenerate bound: the rectangle is nonempty. -/
@[reducible] def Bounds.ok (b : Bounds) : Prop :=
  b.xlo ≤ b.xhi ∧ b.ylo ≤ b.yhi

/-- Clamp a coordinate into an interval. -/
def clampQ (lo hi x : ℚ) : ℚ := max lo (min x hi)

/-- A point lies inside a bound. -/
@[reducible] def ptInB (b : Bounds) (p : ℚ × ℚ) : Prop :=
  b.xlo ≤ p.1 ∧ p.1 ≤ b.xhi ∧ b.ylo ≤ p.2 ∧ p.2 ≤ b.yhi

/-- Modelled from the spec: an agent's position and current target
(velocity, speed, countdown and facing flag do not affect the bounds
property and are abstracted into the per-tick movement fraction). -/
structure Agent where
  px : ℚ
  py : ℚ
  tx : ℚ
  ty : ℚ
deriving DecidableEq

/-- The agent's position lies inside a bound. -/
@[reducible] def Agent.posInB (b : Bounds) (a : Agent) : Prop :=
  ptInB b (a.px, a.py)

/-- The agent's target lies inside a bound. -/
@[reducible] def Agent.targetInB (b : Bounds) (a : Agent) : Prop :=
  ptInB b (a.tx, a.ty)

/-- Modelled from the spec: the events that can reach an agent.  A `tick`
moves the agent the fraction `t` of the way to its target along the
straight line (`t = min 1 (speed * dt / distance)`: cruising covers
`speed * dt` units and arrival stops at the target, so `0 ≤ t ≤ 1`), and
optionally re-picks a random target (chosen within the current canvas
bounds).  A `resize` installs the new bounds, clamps the agent back inside
them, and forces re-targeting to a point inside the new bounds. -/
inductive HEv
  | tick (t : ℚ) (newTarget : Option (ℚ × ℚ))
  | resize (b : Bounds) (newTarget : ℚ × ℚ)

/-- The animated world: current canvas bounds and one agent. -/
structure HWorld where
  bounds : Bounds
  agent : Agent

/-- Modelled from the spec: one event step of the animation controller. -/
def stepH : HWorld → HEv → HWorld
  | ⟨b, a⟩, HEv.tick t nt =>
    let px := a.px + t * (a.tx - a.px)
    let py := a.py + t * (a.ty - a.py)
    match nt with
    | none => ⟨b, ⟨px, py, a.tx, a.ty⟩⟩
    | some (nx, ny) => ⟨b, ⟨px, py, nx, ny⟩⟩
  | ⟨_, a⟩, HEv.resize nb p =>
    ⟨nb, ⟨clampQ nb.xlo nb.xhi a.px, clampQ nb.ylo nb.yhi a.py, p.1, p.2⟩⟩

/-- Validity of a single event at a world, per the spec: tick fractions lie
in `[0, 1]`, re-picked targets lie in the current bounds, and a resize
produces a nonempty bound with its new target inside it. -/
@[reducible] def evOK (w : HWorld) : HEv → Prop
  | HEv.tick t nt =>
    0 ≤ t ∧ t ≤ 1 ∧
      (match nt with
       | none => True
       | some p => ptInB w.bounds p)
  | HEv.resize nb p => nb.ok ∧ ptInB nb p

/-- Validity of an event trace, each event checked at the world it hits. -/
@[reducible] def evsOK : HWorld → List HEv → Prop
  | _, [] => True
  | w, e :: es => evOK w e ∧ evsOK (stepH w e) es

/-- Run an event trace. -/
def runH : HWorld → List HEv → HWorld :=
  List.foldl stepH

/-- The invariant maintained by the animation: nonempty bounds, agent and
target inside them. -/
@[reducible] def WInv (w : HWorld) : Prop :=
  w.bounds.ok ∧ w.agent.posInB w.bounds ∧ w.agent.targetInB w.bounds

end Hedgehog

/-- C6: for every node label, the rendered label equals the original label
when its length is at most 20 characters, and equals `"..."` followed by
exactly the last 20 characters of the original label when its length
exceeds 20 (the dropped-suffix form below has length `min 20 length`, i.e.
exactly 20 in the long case, and is a suffix of the label). -/
theorem displayLabel_truncation (label : String) :
    GraphView.displayLabel label =
      (if label.length ≤ 20 then label
       else ("..." ++ String.mk (label.toList.drop (label.length - 20))))
  ∧ (label.toList.drop (label.length - 20)).length = min 20 label.length
  ∧ label.toList.drop (label.length - 20) <:+ label.toList := by
  refine ⟨?_, ?_, ?_⟩
  · by_cases h : label.length > 20
    · have h' : ¬ label.length ≤ 20 := by omega
      have h2 : ¬ 20 ≥ label.length := by omega
      simp [GraphView.displayLabel, GraphView.rightQ, h, h', h2]
    · have h' : label.length ≤ 20 := by omega
      simp [GraphView.displayLabel, h, h']
  · have hl : label.toList.length = label.length := rfl
    simp only [List.length_drop, hl]
    omega
  · exact ⟨label.toList.take (label.length - 20), List.take_append_drop _ _⟩

/-- Each zoom-out step undoes a zoom-in step exactly (with `qreal` modelled
as `ℚ`). -/
theorem zoomOut_zoomIn (s : ℚ) : GraphView.zoomOut (GraphView.zoomIn s) = s := by
  unfold GraphView.zoomIn GraphView.zoomOut
  ring

/-- C7: each wheel-zoom-in step multiplies the current scale by 1.1 and each
wheel-zoom-out step by 1/1.1 (see `GraphView.zoomIn`, `GraphView.zoomOut`),
so N consecutive zoom-in steps followed by N zoom-out steps returns any
starting scale to its original value (exactly, in the exact-arithmetic
model of `qreal`). -/
theorem zoom_roundtrip (n : Nat) (s : ℚ) :
    GraphView.zoomOut^[n] (GraphView.zoomIn^[n] s) = s := by
  induction n with
  | zero => rfl
  | succ n ih =>
    rw [Function.iterate_succ_apply' (f := GraphView.zoomIn),
      Function.iterate_succ_apply (f := GraphView.zoomOut),
      zoomOut_zoomIn]
    exact ih

/-- C4: for every input whose parse yields zero nodes, `parseDotFile` puts
the view into placeholder state with the "No nodes found in the call graph"
message, drops all edge declarations, and skips the fit-to-content step
(the `false` component). -/
theorem parse_empty_placeholder (content : String) (s : GraphView.GVState)
    (h : (GraphView.parseLines (GraphView.splitLines content)).1 = []) :
    GraphView.parseDotFile content s =
      (⟨[], [], some ("No nodes found in the call graph")⟩, false) := by
  simp [GraphView.parseDotFile, h, GraphView.showPlaceholder, GraphView.clearScene]

/-- C4 witness: the input consisting of the single edge line
`"x" -> "y";` parses to zero nodes and lands in the placeholder state. -/
theorem parse_empty_placeholder_witness :
    (GraphView.parseLines (GraphView.splitLines ("\"x\" -> \"y\";"))).1 = [] ∧
    GraphView.parseDotFile ("\"x\" -> \"y\";") ⟨[], [], none⟩ =
      (⟨[], [], some ("No nodes found in the call graph")⟩, false) :=
  ⟨by decide, parse_empty_placeholder ("\"x\" -> \"y\";") ⟨[], [], none⟩ (by decide)⟩

/-- C5: for every file path that cannot be opened, `loadDotFile` leaves the
node set (and edge set) empty and shows a placeholder message that contains
the path. -/
theorem load_fail_placeholder (fs : String → Option String) (filePath : String)
    (s : GraphView.GVState) (h : fs filePath = none) :
    (GraphView.loadDotFile fs filePath s).1.nodes = []
  ∧ (GraphView.loadDotFile fs filePath s).1.edges = []
  ∧ ∃ pre, (GraphView.loadDotFile fs filePath s).1.placeholderText =
      some (pre ++ filePath) := by
  unfold GraphView.loadDotFile
  rw [h]
  exact ⟨rfl, rfl, "Failed to open output file:\n", rfl⟩

/-- C5 witness: a file system with no readable files, applied at the path
`missing.dot`. -/
theorem load_fail_placeholder_witness :
    ((fun _ => none) : String → Option String) "missing.dot" = none ∧
    ((GraphView.loadDotFile (fun _ => none) "missing.dot" ⟨[], [], none⟩).1.nodes = []
  ∧ (GraphView.loadDotFile (fun _ => none) "missing.dot" ⟨[], [], none⟩).1.edges = []
  ∧ ∃ pre, (GraphView.loadDotFile (fun _ => none) "missing.dot" ⟨[], [], none⟩).1.placeholderText =
      some (pre ++ "missing.dot")) :=
  ⟨rfl, load_fail_placeholder (fun _ => none) "missing.dot" ⟨[], [], none⟩ rfl⟩

/-- C8 counterexample: `clear()` is a public operation, and after it the
scene has no nodes, no edges, and no message — it is in neither of the two
states the claim allows. -/
theorem clear_neither_state :
    ¬ (GraphView.isPlaceholderState (GraphView.clearScene ⟨[], [], some ("m")⟩) ∨
       GraphView.isGraphState (GraphView.clearScene ⟨[], [], some ("m")⟩)) := by
  simp [GraphView.clearScene, GraphView.isPlaceholderState, GraphView.isGraphState]

/-- After `showPlaceholder` the scene is in placeholder state and not in
graph state. -/
theorem showPlaceholder_xor (msg : String) (s : GraphView.GVState) :
    Xor' (GraphView.isPlaceholderState (GraphView.showPlaceholder msg s))
         (GraphView.isGraphState (GraphView.showPlaceholder msg s)) := by
  left
  constructor
  · exact ⟨rfl, rfl, msg, rfl⟩
  · intro hg
    exact hg.1 rfl

/-- After `parseDotFile` the scene is in exactly one of the two states. -/
theorem parseDotFile_xor (content : String) (s : GraphView.GVState) :
    Xor' (GraphView.isPlaceholderState (GraphView.parseDotFile content s).1)
         (GraphView.isGraphState (GraphView.parseDotFile content s).1) := by
  unfold GraphView.parseDotFile
  by_cases h : (GraphView.parseLines (GraphView.splitLines content)).1.isEmpty
  · simpa [h] using showPlaceholder_xor ("No nodes found in the call graph")
      (GraphView.clearScene s)
  · have hne : (GraphView.parseLines (GraphView.splitLines content)).1 ≠ [] :=
      fun hnil => h (by rw [hnil]; rfl)
    rw [if_neg h]
    right
    refine ⟨⟨hne, rfl⟩, ?_⟩
    intro hp
    exact hne hp.1

/-- C8 (amended): after `loadDotFile` and after `showPlaceholder` the scene
is in exactly one of the two mutually exclusive states — placeholder (no
nodes, no edges, a message) or graph (at least one node, no message) —
while the public `clear` operation instead leaves the scene empty with no
message (in neither state). -/
theorem state_dichotomy (fs : String → Option String) (filePath msg : String)
    (s1 s2 s3 : GraphView.GVState) :
    Xor' (GraphView.isPlaceholderState (GraphView.loadDotFile fs filePath s1).1)
         (GraphView.isGraphState (GraphView.loadDotFile fs filePath s1).1)
  ∧ Xor' (GraphView.isPlaceholderState (GraphView.showPlaceholder msg s2))
         (GraphView.isGraphState (GraphView.showPlaceholder msg s2))
  ∧ GraphView.clearScene s3 = ⟨[], [], none⟩ := by
  refine ⟨?_, showPlaceholder_xor msg s2, rfl⟩
  unfold GraphView.loadDotFile
  cases h : fs filePath with
  | none => exact showPlaceholder_xor _ s1
  | some content => exact parseDotFile_xor content s1

/-- The `k`-th node placed by the layout loop started at column `c < 5` and
row `r` occupies grid slot `5 * r + c + k`: column `slot % 5`, row
`slot / 5`, at 200 horizontal and 80 vertical spacing. -/
theorem layoutLoop_getElem (l : List String) (c r k : Nat) (hc : c < 5) :
    (GraphView.layoutLoop l c r)[k]? =
      l[k]?.map (fun id =>
        (id, 200 * ((5 * r + c + k) % 5), 80 * ((5 * r + c + k) / 5))) := by
  induction l generalizing c r k with
  | nil => simp [GraphView.layoutLoop]
  | cons id rest ih =>
    cases k with
    | zero =>
      simp [GraphView.layoutLoop]
      omega
    | succ k =>
      show (GraphView.layoutLoop (id :: rest) c r)[k + 1]? = _
      unfold GraphView.layoutLoop
      by_cases h5 : c + 1 ≥ 5
      · rw [if_pos h5]
        simp only [List.getElem?_cons_succ]
        rw [ih 0 (r + 1) k (by omega)]
        have harith : 5 * (r + 1) + 0 + k = 5 * r + c + (k + 1) := by omega
        rw [harith]
      · rw [if_neg h5]
        simp only [List.getElem?_cons_succ]
        rw [ih (c + 1) r k (by omega)]
        have harith : 5 * r + (c + 1) + k = 5 * r + c + (k + 1) := by omega
        rw [harith]

/-- C1 (amended): `layoutGraph` assigns the `k`-th node in ascending
identifier order — the `QMap` iteration order of `m_nodes`, not the
first-seen parse order — the screen position `(200 * (k % 5), 80 * (k / 5))`
(5 columns, wrapping to a new row); the assignment is a pure function of
the node set, so re-running it yields identical positions. -/
theorem layout_grid (nodes : List (String × String)) (k : Nat) :
    (GraphView.layoutGraph nodes)[k]? =
      (GraphView.sortIds (nodes.map Prod.fst))[k]?.map
        (fun id => (id, 200 * (k % 5), 80 * (k / 5))) := by
  have h := layoutLoop_getElem (GraphView.sortIds (nodes.map Prod.fst)) 0 0 k
    (by omega)
  have harith : 5 * 0 + 0 + k = k := by omega
  rw [harith] at h
  exact h

/-- Containment `m_nodes.contains(id)` is identifier membership. -/
theorem containsId_iff (ns : List (String × String)) (id : String) :
    GraphView.containsId ns id = true ↔ id ∈ ns.map Prod.fst := by
  rw [GraphView.containsId, List.any_eq_true]
  constructor
  · rintro ⟨e, he, hp⟩
    exact List.mem_map.mpr ⟨e, he, of_decide_eq_true hp⟩
  · intro h
    obtain ⟨e, he, hfst⟩ := List.mem_map.mp h
    exact ⟨e, he, decide_eq_true hfst⟩

/-- Membership in the first-occurrence deduplication. -/
theorem firstDedupAux_mem (l : List String) (seen : List String) (a : String) :
    a ∈ GraphView.firstDedupAux seen l ↔ a ∈ l ∧ a ∉ seen := by
  induction l generalizing seen with
  | nil => simp [GraphView.firstDedupAux]
  | cons x xs ih =>
    by_cases hx : x ∈ seen
    · rw [GraphView.firstDedupAux, if_pos hx, ih]
      simp only [List.mem_cons]
      by_cases hax : a = x
      · subst hax; tauto
      · tauto
    · rw [GraphView.firstDedupAux, if_neg hx]
      simp only [List.mem_cons, ih, List.mem_append, List.mem_singleton]
      by_cases hax : a = x
      · subst hax; tauto
      · tauto

/-- The first-occurrence deduplication has no duplicates. -/
theorem firstDedupAux_nodup (l : List String) (seen : List String) :
    (GraphView.firstDedupAux seen l).Nodup := by
  induction l generalizing seen with
  | nil => simp [GraphView.firstDedupAux]
  | cons x xs ih =>
    by_cases hx : x ∈ seen
    · rw [GraphView.firstDedupAux, if_pos hx]; exact ih seen
    · rw [GraphView.firstDedupAux, if_neg hx]
      refine List.nodup_cons.mpr ⟨?_, ih (seen ++ [x])⟩
      rw [firstDedupAux_mem]
      rintro ⟨-, h2⟩
      exact h2 (List.mem_append.mpr (Or.inr (List.mem_singleton.mpr rfl)))

/-- Identifier order produced by repeated `createNode`: the identifiers of
the node map are the declared identifiers with later duplicates skipped. -/
theorem buildNodesAux_map_fst (ds ns : List (String × String)) :
    (GraphView.buildNodesAux ns ds).map Prod.fst =
      ns.map Prod.fst ++
        GraphView.firstDedupAux (ns.map Prod.fst) (ds.map Prod.fst) := by
  induction ds generalizing ns with
  | nil => simp [GraphView.buildNodesAux, GraphView.firstDedupAux]
  | cons d ds ih =>
    by_cases hd : d.1 ∈ ns.map Prod.fst
    · have hc : GraphView.containsId ns d.1 = true := (containsId_iff ns d.1).mpr hd
      rw [GraphView.buildNodesAux, GraphView.createNode, if_pos hc, ih ns,
        List.map_cons, GraphView.firstDedupAux, if_pos hd]
    · have hc : ¬ GraphView.containsId ns d.1 = true :=
        fun h => hd ((containsId_iff ns d.1).mp h)
      rw [GraphView.buildNodesAux, GraphView.createNode, if_neg hc,
        ih (ns ++ [(d.1, d.2)]), List.map_cons, GraphView.firstDedupAux, if_neg hd]
      simp [List.append_assoc]

/-- The identifiers of the node map built from a declaration list. -/
theorem buildNodes_map_fst (ds : List (String × String)) :
    (GraphView.buildNodes ds).map Prod.fst =
      GraphView.firstDedupAux [] (ds.map Prod.fst) := by
  simpa using buildNodesAux_map_fst ds []

/-- Node count: the node map built from the declarations has one entry per
distinct declared identifier. -/
theorem buildNodes_length (ds : List (String × String)) :
    (GraphView.buildNodes ds).length = ((ds.map Prod.fst).toFinset).card := by
  have h1 : (GraphView.buildNodes ds).length =
      ((GraphView.buildNodes ds).map Prod.fst).length := by simp
  rw [h1, buildNodes_map_fst]
  rw [← List.toFinset_card_of_nodup (firstDedupAux_nodup (ds.map Prod.fst) [])]
  congr 1
  ext a
  simp [List.mem_toFinset, firstDedupAux_mem]

/-- The line loop of `parseDotFile` splits into the node-map construction
over the node declarations and the pending-edge list of the edge
declarations. -/
theorem foldl_lineStep (lines : List String) (ns es : List (String × String)) :
    lines.foldl GraphView.lineStep (ns, es) =
      (GraphView.buildNodesAux ns (GraphView.nodeDecls lines),
       es ++ GraphView.edgeDecls lines) := by
  induction lines generalizing ns es with
  | nil => simp [GraphView.nodeDecls, GraphView.edgeDecls, GraphView.buildNodesAux]
  | cons line rest ih =>
    rw [List.foldl_cons]
    cases hn : GraphView.findNodeMatch line.toList with
    | some r =>
      obtain ⟨id, lab⟩ := r
      have hn' : GraphView.findNodeMatch line.data = some (id, lab) := hn
      have hstep : GraphView.lineStep (ns, es) line =
          (GraphView.createNode ns id lab, es) := by
        simp only [GraphView.lineStep]
        rw [hn]
      rw [hstep, ih]
      simp [GraphView.nodeDecls, GraphView.edgeDecls, List.filterMap_cons, hn, hn',
        GraphView.buildNodesAux]
    | none =>
      have hn' : GraphView.findNodeMatch line.data = none := hn
      cases he : GraphView.findEdgeMatch line.toList with
      | some e =>
        have he' : GraphView.findEdgeMatch line.data = some e := he
        have hstep : GraphView.lineStep (ns, es) line = (ns, es ++ [e]) := by
          simp only [GraphView.lineStep]
          rw [hn, he]
        rw [hstep, ih]
        simp [GraphView.nodeDecls, GraphView.edgeDecls, List.filterMap_cons, hn, hn',
          he, he']
      | none =>
        have he' : GraphView.findEdgeMatch line.data = none := he
        have hstep : GraphView.lineStep (ns, es) line = (ns, es) := by
          simp only [GraphView.lineStep]
          rw [hn, he]
        rw [hstep, ih]
        simp [GraphView.nodeDecls, GraphView.edgeDecls, List.filterMap_cons, hn, hn',
          he, he']

/-- Closed form of `parseLines`: nodes from the node declarations, edges
the edge declarations filtered against the final node map. -/
theorem parseLines_eq (lines : List String) :
    GraphView.parseLines lines =
      (GraphView.buildNodes (GraphView.nodeDecls lines),
       (GraphView.edgeDecls lines).filter
         (fun e =>
           GraphView.containsId
             (GraphView.buildNodes (GraphView.nodeDecls lines)) e.1 &&
           GraphView.containsId
             (GraphView.buildNodes (GraphView.nodeDecls lines)) e.2)) := by
  unfold GraphView.parseLines
  rw [foldl_lineStep]
  simp [GraphView.buildNodes]

/-- C3: for every input text, the parsed node count equals the number of
distinct identifiers among its node declarations, and the materialized
edges are exactly the edge declarations whose both endpoints are in the
final node set (resolved after all lines, so forward references resolve
and dangling edges are dropped). -/
theorem parse_counts (content : String) :
    (GraphView.parseDot content).1.length =
      ((GraphView.nodeDecls (GraphView.splitLines content)).map
        Prod.fst).toFinset.card
  ∧ (GraphView.parseDot content).2 =
      (GraphView.edgeDecls (GraphView.splitLines content)).filter
        (fun e => GraphView.containsId (GraphView.parseDot content).1 e.1 &&
                  GraphView.containsId (GraphView.parseDot content).1 e.2)
  ∧ (GraphView.parseDot content).2.length =
      ((GraphView.edgeDecls (GraphView.splitLines content)).filter
        (fun e => GraphView.containsId (GraphView.parseDot content).1 e.1 &&
                  GraphView.containsId (GraphView.parseDot content).1 e.2)).length := by
  unfold GraphView.parseDot
  rw [parseLines_eq]
  exact ⟨buildNodes_length _, rfl, rfl⟩

/-- If an identifier appears in a node map, `find?` on it succeeds. -/
theorem find?_isSome_of_mem (ns : List (String × String)) (id : String)
    (h : id ∈ ns.map Prod.fst) :
    (ns.find? (fun e => e.1 = id)).isSome = true := by
  induction ns with
  | nil => simp at h
  | cons n ns ih =>
    by_cases hn : n.1 = id
    · rw [List.find?_cons_of_pos ns (decide_eq_true hn)]
      rfl
    · have hmem : id ∈ ns.map Prod.fst := by
        rw [List.map_cons] at h
        rcases List.mem_cons.mp h with h1 | h1
        · exact absurd h1.symm hn
        · exact h1
      rw [List.find?_cons_of_neg ns (by simpa using hn)]
      exact ih hmem

/-- If an identifier is absent from a node map, `find?` on it fails. -/
theorem find?_eq_none_of_not_mem (ns : List (String × String)) (id : String)
    (h : id ∉ ns.map Prod.fst) :
    ns.find? (fun e => e.1 = id) = none := by
  rw [List.find?_eq_none]
  intro e he hp
  exact h (List.mem_map.mpr ⟨e, he, of_decide_eq_true hp⟩)

/-- Entries appended behind an already-present identifier do not change the
result of `find?` on it. -/
theorem find?_append_of_isSome (ns extra : List (String × String))
    (p : String × String → Bool) (h : (ns.find? p).isSome = true) :
    (ns ++ extra).find? p = ns.find? p := by
  rw [List.find?_append]
  obtain ⟨e, he⟩ := Option.isSome_iff_exists.mp h
  rw [he]
  rfl

/-- Once an identifier is in the node map, later `createNode` calls never
change what `find?` returns for it. -/
theorem buildNodesAux_find?_mem (ds ns : List (String × String)) (id : String)
    (h : id ∈ ns.map Prod.fst) :
    (GraphView.buildNodesAux ns ds).find? (fun e => e.1 = id) =
      ns.find? (fun e => e.1 = id) := by
  induction ds generalizing ns with
  | nil => rfl
  | cons d ds ih =>
    rw [GraphView.buildNodesAux, GraphView.createNode]
    by_cases hc : GraphView.containsId ns d.1 = true
    · rw [if_pos hc]
      exact ih ns h
    · rw [if_neg hc]
      rw [ih (ns ++ [(d.1, d.2)]) (by simp [h])]
      exact find?_append_of_isSome ns [(d.1, d.2)] _ (find?_isSome_of_mem ns id h)

/-- For an identifier not yet in the node map, the entry that `createNode`
accumulation yields for it is the first declaration that carries it. -/
theorem buildNodesAux_find?_new (ds ns : List (String × String)) (id : String)
    (h : id ∉ ns.map Prod.fst) :
    (GraphView.buildNodesAux ns ds).find? (fun e => e.1 = id) =
      ds.find? (fun e => e.1 = id) := by
  induction ds generalizing ns with
  | nil =>
    rw [GraphView.buildNodesAux, List.find?_nil]
    exact find?_eq_none_of_not_mem ns id h
  | cons d ds ih =>
    rw [GraphView.buildNodesAux, GraphView.createNode]
    by_cases hid : d.1 = id
    · have hc : ¬ GraphView.containsId ns d.1 = true :=
        fun hcc => h (hid ▸ (containsId_iff ns d.1).mp hcc)
      rw [if_neg hc]
      rw [buildNodesAux_find?_mem ds (ns ++ [(d.1, d.2)]) id (by simp [hid])]
      rw [List.find?_append, find?_eq_none_of_not_mem ns id h]
      simp only [List.find?_cons, hid]
      rw [← hid]
      simp
    · have hrhs : (d :: ds).find? (fun e => e.1 = id) =
          ds.find? (fun e => e.1 = id) :=
        List.find?_cons_of_neg _ (by simpa using hid)
      rw [hrhs]
      by_cases hc : GraphView.containsId ns d.1 = true
      · rw [if_pos hc]
        exact ih ns h
      · rw [if_neg hc]
        have hnotin : id ∉ (ns ++ [(d.1, d.2)]).map Prod.fst := by
          rw [List.map_append]
          intro hmem
          rcases List.mem_append.mp hmem with h1 | h1
          · exact h h1
          · have h2 : id = d.1 := by simpa using h1
            exact hid h2.symm
        exact ih (ns ++ [(d.1, d.2)]) hnotin

/-- A list with duplicate-free identifiers has exactly one entry for each
identifier it contains. -/
theorem filter_length_one (ns : List (String × String)) (id : String)
    (hnd : (ns.map Prod.fst).Nodup) (h : id ∈ ns.map Prod.fst) :
    (ns.filter (fun e => e.1 = id)).length = 1 := by
  induction ns with
  | nil => simp at h
  | cons n ns ih =>
    rw [List.map_cons, List.nodup_cons] at hnd
    by_cases hn : n.1 = id
    · have hnot : id ∉ ns.map Prod.fst := hn ▸ hnd.1
      have hfil : ns.filter (fun e => e.1 = id) = [] := by
        rw [List.filter_eq_nil_iff]
        intro e he hp
        exact hnot (List.mem_map.mpr ⟨e, he, of_decide_eq_true hp⟩)
      simp [List.filter_cons, hn, hfil]
    · have hmem : id ∈ ns.map Prod.fst := by
        rw [List.map_cons] at h
        rcases List.mem_cons.mp h with h1 | h1
        · exact absurd h1.symm hn
        · exact h1
      have hstep : (n :: ns).filter (fun e => e.1 = id) =
          ns.filter (fun e => e.1 = id) := by
        simp [List.filter_cons, hn]
      rw [hstep]
      exact ih hnd.2 hmem

/-- C2 (amended): for every declaration list and every declared identifier,
the node map keeps exactly one entry for that identifier; that entry is the
FIRST declaration carrying the identifier — a later redeclaration with a
different label does NOT update the stored label (the early return in
`createNode` ignores it) — and the layout order of identifiers is their
first-occurrence order, unaffected by redeclarations. -/
theorem duplicate_decl_first_wins (decls : List (String × String)) (id : String)
    (h : id ∈ decls.map Prod.fst) :
    ((GraphView.buildNodes decls).filter (fun e => e.1 = id)).length = 1
  ∧ (GraphView.buildNodes decls).find? (fun e => e.1 = id) =
      decls.find? (fun e => e.1 = id)
  ∧ (GraphView.buildNodes decls).map Prod.fst =
      GraphView.firstDedupAux [] (decls.map Prod.fst) := by
  refine ⟨?_, ?_, buildNodes_map_fst decls⟩
  · apply filter_length_one
    · rw [buildNodes_map_fst]
      exact firstDedupAux_nodup _ _
    · rw [buildNodes_map_fst, firstDedupAux_mem]
      exact ⟨h, by simp⟩
  · exact buildNodesAux_find?_new decls [] id (by simp)

/-- C2 witness: the declaration list `[("a","x"), ("a","y")]` redeclares
`a` with a different label; the node map keeps one entry, and it is the
first declaration `("a","x")`. -/
theorem duplicate_decl_first_wins_witness :
    ("a" : String) ∈ ([("a", "x"), ("a", "y")] : List (String × String)).map Prod.fst
  ∧ (((GraphView.buildNodes [("a", "x"), ("a", "y")]).filter
        (fun e => e.1 = "a")).length = 1
  ∧ (GraphView.buildNodes [("a", "x"), ("a", "y")]).find? (fun e => e.1 = "a") =
      ([("a", "x"), ("a", "y")] : List (String × String)).find? (fun e => e.1 = "a")
  ∧ (GraphView.buildNodes [("a", "x"), ("a", "y")]).map Prod.fst =
      GraphView.firstDedupAux []
        (([("a", "x"), ("a", "y")] : List (String × String)).map Prod.fst)) :=
  ⟨by decide, duplicate_decl_first_wins [("a", "x"), ("a", "y")] "a" (by decide)⟩

/-- C2 counterexample: parsing an input that declares `a` with label `x`
and then redeclares it with label `y` keeps the FIRST label `x`; the claim
that the entry's label is updated in place to the label of the later
declaration is false. -/
theorem duplicate_decl_label_not_updated :
    (GraphView.parseDot ("\"a\" [label=\"x\"]\n\"a\" [label=\"y\"]")).1 = [("a", "x")]
  ∧ (GraphView.parseDot ("\"a\" [label=\"x\"]\n\"a\" [label=\"y\"]")).1 ≠ [("a", "y")] :=
  ⟨by decide, by decide⟩

/-- C10: a line on which the node pattern matches — in particular any line
containing both an edge arrow and a bracketed label attribute, where the
node pattern matches the `"<to>" [label="..."]` portion — is consumed as a
node declaration and contributes no edge. -/
theorem edge_with_label_is_node (line id lab f t : String)
    (hn : GraphView.findNodeMatch line.toList = some (id, lab))
    (he : GraphView.findEdgeMatch line.toList = some (f, t)) :
    GraphView.parseLines [line] = ([(id, lab)], []) := by
  have hstep : GraphView.lineStep ([], []) line =
      (GraphView.createNode [] id lab, []) := by
    simp only [GraphView.lineStep]
    rw [hn]
  unfold GraphView.parseLines
  rw [List.foldl_cons, hstep, List.foldl_nil]
  rfl

/-- C10 witness: the line `"a" -> "b" [label="x"]` matches both patterns;
it parses as the node `("b", "x")` and produces no edge. -/
theorem edge_with_label_is_node_witness :
    GraphView.findNodeMatch ("\"a\" -> \"b\" [label=\"x\"]".toList) = some ("b", "x")
  ∧ GraphView.findEdgeMatch ("\"a\" -> \"b\" [label=\"x\"]".toList) = some ("a", "b")
  ∧ GraphView.parseLines ["\"a\" -> \"b\" [label=\"x\"]"] = ([("b", "x")], []) :=
  ⟨by decide, by decide,
    edge_with_label_is_node ("\"a\" -> \"b\" [label=\"x\"]") ("b") ("x") ("a") ("b")
      (by decide) (by decide)⟩

/-- C1 counterexample: in the input declaring `b` before `a`, the 0-th node
in first-seen order is `b`, but layout walks the `QMap` in ascending key
order and places `b` at `(200, 0)`, not at the claimed
`(0 * 200, 0 * 80) = (0, 0)`. -/
theorem layout_not_insertion_order :
    (GraphView.parseDot ("\"b\" [label=\"B\"]\n\"a\" [label=\"A\"]")).1.map Prod.fst =
      ["b", "a"]
  ∧ GraphView.posOf
      (GraphView.layoutGraph
        (GraphView.parseDot ("\"b\" [label=\"B\"]\n\"a\" [label=\"A\"]")).1) "b" =
      some (200, 0)
  ∧ GraphView.posOf
      (GraphView.layoutGraph
        (GraphView.parseDot ("\"b\" [label=\"B\"]\n\"a\" [label=\"A\"]")).1) "b" ≠
      some (0, 0) := by
  refine ⟨by decide, by decide, by decide⟩

/-- Moving a fraction `t ∈ [0, 1]` of the way from `p` toward `q` stays in
any interval containing both. -/
theorem convex_move {lo hi p q t : ℚ} (hp1 : lo ≤ p) (hp2 : p ≤ hi)
    (hq1 : lo ≤ q) (hq2 : q ≤ hi) (ht0 : 0 ≤ t) (ht1 : t ≤ 1) :
    lo ≤ p + t * (q - p) ∧ p + t * (q - p) ≤ hi := by
  constructor
  · nlinarith [mul_nonneg ht0 (sub_nonneg.mpr hq1),
      mul_nonneg (sub_nonneg.mpr ht1) (sub_nonneg.mpr hp1)]
  · nlinarith [mul_nonneg ht0 (sub_nonneg.mpr hq2),
      mul_nonneg (sub_nonneg.mpr ht1) (sub_nonneg.mpr hp2)]

/-- Clamping into a nonempty interval lands inside it. -/
theorem clampQ_mem {lo hi : ℚ} (x : ℚ) (h : lo ≤ hi) :
    lo ≤ Hedgehog.clampQ lo hi x ∧ Hedgehog.clampQ lo hi x ≤ hi := by
  unfold Hedgehog.clampQ
  exact ⟨le_max_left _ _, max_le h (min_le_right _ _)⟩

/-- One valid event preserves the animation invariant: the bounds stay
nonempty and the agent's position and target stay inside them. -/
theorem stepH_inv (w : Hedgehog.HWorld) (e : Hedgehog.HEv)
    (hw : Hedgehog.WInv w) (he : Hedgehog.evOK w e) :
    Hedgehog.WInv (Hedgehog.stepH w e) := by
  obtain ⟨b, a⟩ := w
  obtain ⟨hok, ⟨hpx1, hpx2, hpy1, hpy2⟩, ⟨htx1, htx2, hty1, hty2⟩⟩ := hw
  cases e with
  | tick t nt =>
    obtain ⟨ht0, ht1, hnt⟩ := he
    have hx := convex_move hpx1 hpx2 htx1 htx2 ht0 ht1
    have hy := convex_move hpy1 hpy2 hty1 hty2 ht0 ht1
    cases nt with
    | none =>
      exact ⟨hok, ⟨hx.1, hx.2, hy.1, hy.2⟩, htx1, htx2, hty1, hty2⟩
    | some p =>
      obtain ⟨hn1, hn2, hn3, hn4⟩ := hnt
      exact ⟨hok, ⟨hx.1, hx.2, hy.1, hy.2⟩, hn1, hn2, hn3, hn4⟩
  | resize nb p =>
    obtain ⟨hnok, hn1, hn2, hn3, hn4⟩ := he
    have hcx := clampQ_mem a.px hnok.1
    have hcy := clampQ_mem a.py hnok.2
    exact ⟨hnok, ⟨hcx.1, hcx.2, hcy.1, hcy.2⟩, hn1, hn2, hn3, hn4⟩

/-- The invariant is preserved along any valid event trace. -/
theorem runH_inv (evs : List Hedgehog.HEv) (w : Hedgehog.HWorld)
    (hw : Hedgehog.WInv w) (hevs : Hedgehog.evsOK w evs) :
    Hedgehog.WInv (Hedgehog.runH w evs) := by
  induction evs generalizing w with
  | nil => exact hw
  | cons e es ih =>
    exact ih (Hedgehog.stepH w e) (stepH_inv w e hw hevs.1) hevs.2

/-- C9: for every agent and every valid event trace (ticks with movement
fraction in `[0, 1]`, re-targets inside the current bounds, resizes to
nonempty bounds that clamp the agent back inside), the agent's position at
the end of the trace lies within the current canvas bounds — in particular
at the end of every tick, including the first tick after a resize. -/
theorem agent_stays_in_bounds (w : Hedgehog.HWorld) (evs : List Hedgehog.HEv)
    (hw : Hedgehog.WInv w) (hevs : Hedgehog.evsOK w evs) :
    (Hedgehog.runH w evs).agent.posInB (Hedgehog.runH w evs).bounds := by
  exact (runH_inv evs w hw hevs).2.1

/-- C9 witness: a concrete world with bounds `[0,10] × [0,10]`, a tick, a
shrinking resize that forces a clamp, and another tick. -/
theorem agent_stays_in_bounds_witness :
    Hedgehog.WInv ⟨⟨0, 0, 10, 10⟩, ⟨9, 9, 2, 2⟩⟩
  ∧ Hedgehog.evsOK ⟨⟨0, 0, 10, 10⟩, ⟨9, 9, 2, 2⟩⟩
      [Hedgehog.HEv.tick (1 / 2) none,
       Hedgehog.HEv.resize ⟨0, 0, 5, 5⟩ (1, 1),
       Hedgehog.HEv.tick 1 none]
  ∧ (Hedgehog.runH ⟨⟨0, 0, 10, 10⟩, ⟨9, 9, 2, 2⟩⟩
      [Hedgehog.HEv.tick (1 / 2) none,
       Hedgehog.HEv.resize ⟨0, 0, 5, 5⟩ (1, 1),
       Hedgehog.HEv.tick 1 none]).agent.posInB
      (Hedgehog.runH ⟨⟨0, 0, 10, 10⟩, ⟨9, 9, 2, 2⟩⟩
        [Hedgehog.HEv.tick (1 / 2) none,
         Hedgehog.HEv.resize ⟨0, 0, 5, 5⟩ (1, 1),
         Hedgehog.HEv.tick 1 none]).bounds :=
  ⟨by norm_num [Hedgehog.WInv, Hedgehog.Bounds.ok, Hedgehog.Agent.posInB,
      Hedgehog.Agent.targetInB, Hedgehog.ptInB],
   by norm_num [Hedgehog.evsOK, Hedgehog.evOK, Hedgehog.stepH, Hedgehog.ptInB,
      Hedgehog.Bounds.ok, Hedgehog.clampQ],
   agent_stays_in_bounds ⟨⟨0, 0, 10, 10⟩, ⟨9, 9, 2, 2⟩⟩
     [Hedgehog.HEv.tick (1 / 2) none,
      Hedgehog.HEv.resize ⟨0, 0, 5, 5⟩ (1, 1),
      Hedgehog.HEv.tick 1 none]
     (by norm_num [Hedgehog.WInv, Hedgehog.Bounds.ok, Hedgehog.Agent.posInB,
        Hedgehog.Agent.targetInB, Hedgehog.ptInB])
     (by norm_num [Hedgehog.evsOK, Hedgehog.evOK, Hedgehog.stepH, Hedgehog.ptInB,
        Hedgehog.Bounds.ok, Hedgehog.clampQ])⟩
